import Mathlib

/-!
Verification of the `unico` stackful-coroutine runtime.

The development shallowly embeds the POSIX `ucontext` backend
(`src/context/src/ucx.rs`) and the panic relay of the raw coroutine layer
(`src/ful/src/raw/panicking.rs`).

The backend is inherently about the flow of control, so it is embedded as a
small-step machine: a `World` of contexts (mirroring the per-thread set of
`ucontext_t` blocks plus the thread-local `TRANSFER` slot), a currently
running context, and the program that context is executing.  A context's
pending continuation ("what the Rust code does after `swapcontext` returns
inside `Ucx::resume`") is a Lean function from the received `Transfer` to the
rest of the program.  One machine step performs exactly one `Ucx::resume`
call, mirroring the source line by line: write the thread-local slot, save
the caller (`swapcontext` saving into `TRANSFER.get().ucx`), hand control to
the target, and on the arriving side either run the entry wrapper (fresh
context) or take and apply the incoming on-top callback and return from
`resume` (suspended context).
-/

namespace Unico

/-- Opaque data pointer (`*mut ()`) carried through a `Transfer`. -/
abbrev Data := Nat

/-- Address identifying a `ucontext_t` control block (`NonNull<ucontext_t>`). -/
abbrev CtxId := Nat

/-- Syntax for an on-top callback (`Map<Ucx>`, a function `Transfer -> Transfer`).
A callback may transform the pointer and data arbitrarily and may install a
further on-top callback on the transfer it returns.  This syntactic form with
a denotation keeps the type strictly positive while covering every pure
callback. -/
inductive MapCode where
  | mk (f : CtxId → Data → CtxId × Data) (reinstall : Option MapCode)

/-- The callback the produced transfer carries, if the callback installs one. -/
def MapCode.reinstallOf : MapCode → Option MapCode
  | .mk _ re => re

/-- Mirrors `Ucx`: the context pointer plus the optional on-top callback slot. -/
structure Ucx where
  pointer : CtxId
  on_top : Option MapCode

/-- Mirrors `Transfer<Ucx>`: the `(context, data)` pair exchanged at a switch. -/
structure Transfer where
  context : Ucx
  data : Data

/-- Denotation of an on-top callback as a transfer transformer. -/
def denoteMap : MapCode → Transfer → Transfer
  | .mk f re, t =>
    let pd := f t.context.pointer t.data
    { context := { pointer := pd.1, on_top := re }, data := pd.2 }

/-- Mirrors the thread-local `LocalTransfer` record stored in `TRANSFER`:
populated just before a `swapcontext` and read immediately after it. -/
structure LocalTransfer where
  from? : Option CtxId
  ucx : CtxId
  on_top : Option MapCode
  data : Data

/-- Mirrors `From<LocalTransfer> for Transfer`: the receiving side rebuilds a
`Transfer` whose context is the switch's source (`from.unwrap()`) carrying the
slot's on-top callback and data. -/
def LocalTransfer.toTransfer (s : LocalTransfer) : Option Transfer :=
  s.from?.map fun f => { context := { pointer := f, on_top := s.on_top }, data := s.data }

/-- What a flow of control does next.  `resume t k` is a call to
`Ucx::resume(t)` whose returned transfer is consumed by the continuation `k`;
`stop d` ends the whole run (the machine halts with `d`). -/
inductive Prog where
  | stop (d : Data)
  | resume (t : Transfer) (k : Transfer → Prog)

/-- Mirrors `Ucontext::resume_with`: install the callback in the transfer's
context and call `Ucx::resume` on the result. -/
def Prog.resumeWith (t : Transfer) (m : MapCode) (k : Transfer → Prog) : Prog :=
  .resume { t with context := { t.context with on_top := some m } } k

/-- The state of one context in the world. -/
inductive CtxState where
  | fresh (entry : Transfer → Prog)
  | suspended (k : Transfer → Prog)
  | running

/-- The per-thread backend state: whether the OS primitives succeed (the
status returned by `swapcontext`), the thread-local `TRANSFER` slot, and the
control block of every context. -/
structure World where
  osOk : Bool
  slot : LocalTransfer
  ctxs : CtxId → CtxState

/-- Overwrite one context's state. -/
def setCtx (w : World) (c : CtxId) (s : CtxState) : World :=
  { w with ctxs := fun x => if x = c then s else w.ctxs x }

/-- A machine configuration: the world, the currently running context, and the
program it is executing. -/
structure Config where
  w : World
  cur : CtxId
  prog : Prog

/-- Observable events of a run, used to state temporal claims. -/
inductive Event where
  | arrive (c : CtxId) (t : Transfer)
  | entryRun (c : CtxId) (t : Transfer)
  | mapRun (c : CtxId) (tin : Transfer) (tout : Transfer)
  | ret (c : CtxId) (t : Transfer)

/-- Result of one machine step. -/
inductive Step where
  | halt (d : Data)
  | aborted
  | stuck
  | next (c : Config) (evs : List Event)

/-- Control arrives at `target` coming from `src` with the just-written slot
contents.  Mirrors the two receiving sites in `ucx.rs`:

* a fresh context starts in `wrapper`, which calls `entry(TRANSFER.get().into())`
  directly (no on-top processing);
* a suspended context continues inside `Ucx::resume` after its `swapcontext`
  returned: it rebuilds the transfer from the slot, `take`s the on-top
  callback out of it, applies the callback if there was one, and returns the
  result from `resume`. -/
def arriveAt (w : World) (src target : CtxId) (onTop : Option MapCode) (d : Data) : Step :=
  match w.ctxs target with
  | .fresh entry =>
    let t0 : Transfer := { context := { pointer := src, on_top := onTop }, data := d }
    .next ⟨setCtx w target .running, target, entry t0⟩
      [.arrive target t0, .entryRun target t0]
  | .suspended k =>
    let t1 : Transfer := { context := { pointer := src, on_top := onTop }, data := d }
    match onTop with
    | some m =>
      let tin : Transfer := { context := { pointer := src, on_top := none }, data := d }
      let t2 := denoteMap m tin
      .next ⟨setCtx w target .running, target, k t2⟩
        [.arrive target t1, .mapRun target tin t2, .ret target t2]
    | none =>
      .next ⟨setCtx w target .running, target, k t1⟩
        [.arrive target t1, .ret target t1]
  | .running => .stuck

/-- The slot contents `Ucx::resume` writes into `TRANSFER` just before the
`swapcontext` call: source read from `TRANSFER.get().ucx`, target pointer,
target's on-top callback, and the data. -/
def slotFor (w : World) (t : Transfer) : LocalTransfer :=
  { from? := some w.slot.ucx, ucx := t.context.pointer,
    on_top := t.context.on_top, data := t.data }

/-- Effect of the `swapcontext` call on the caller's side: the slot has been
written and the source context (`TRANSFER.get().ucx`) now holds the saved
continuation of the `resume` call. -/
def suspendCaller (w : World) (t : Transfer) (k : Transfer → Prog) : World :=
  setCtx { w with slot := slotFor w t } w.slot.ucx (.suspended k)

/-- One machine step.  The `resume` case mirrors `Ucx::resume`: read the
source from `TRANSFER.get().ucx`, write the slot, `swapcontext` out of the
source (asserting the OS call succeeded — a failed status aborts), and let
control arrive at the target. -/
def step (cfg : Config) : Step :=
  match cfg.prog with
  | .stop d => .halt d
  | .resume t k =>
    match cfg.w.osOk with
    | false => .aborted
    | true =>
      arriveAt (suspendCaller cfg.w t k) cfg.w.slot.ucx
        t.context.pointer t.context.on_top t.data

/-- Fuel-bounded run: the chronological event log and the final datum if the
run halted within the fuel. -/
def run : Nat → Config → List Event × Option Data
  | 0, _ => ([], none)
  | n + 1, cfg =>
    match step cfg with
    | .halt d => ([], some d)
    | .aborted => ([], none)
    | .stuck => ([], none)
    | .next cfg2 evs =>
      let r := run n cfg2
      (evs ++ r.1, r.2)

/-- Transfers with which `entry` has been invoked on context `c`, in order. -/
def entriesOf (c : CtxId) : List Event → List Transfer
  | [] => []
  | .entryRun c2 t :: es => if c2 = c then t :: entriesOf c es else entriesOf c es
  | _ :: es => entriesOf c es

/-- Transfers that arrived at context `c` (control reaching `c`), in order. -/
def arrivalsOf (c : CtxId) : List Event → List Transfer
  | [] => []
  | .arrive c2 t :: es => if c2 = c then t :: arrivalsOf c es else arrivalsOf c es
  | _ :: es => arrivalsOf c es

/-- Well-formedness: the thread-local slot's `ucx` field names the currently
running context, and that context is indeed marked running.  `Ucx::resume`
maintains exactly this invariant around every switch. -/
def WF (cfg : Config) : Prop :=
  cfg.w.slot.ucx = cfg.cur ∧ cfg.w.ctxs cfg.cur = .running

/-! ### Context creation (`Ucx::new_on`, `Ucx::new_root`) -/

/-- A raw stack region handed to `new_on` (`NonNull<[u8]>`): base address and
size in bytes. -/
structure Region where
  base : Nat
  size : Nat
deriving DecidableEq

/-- Size of the context control block (`ucontext_t`) carved from the top of
the stack region.  The concrete value is immaterial to every claim; it is
fixed so the model stays executable. -/
def ucontextSize : Nat := 936

/-- Modelled from the spec: `stack_top` (declared in the `unico-context`
crate root, which is not under `src/`) yields the location of the control
block at the top of the region, and fails exactly when the region cannot hold
the control block. -/
def stack_top (stack : Region) : Option CtxId :=
  if ucontextSize ≤ stack.size then some (stack.base + stack.size - ucontextSize) else none

/-- Mirrors `NewError`: creation either found the stack too small or had the
underlying `getcontext` call fail with an OS error. -/
inductive NewError where
  | StackTooSmall
  | GetContext (errno : Nat)
deriving DecidableEq

/-- Mirrors `Ucx::new_on`: take the control-block location from `stack_top`
(`ok_or(StackTooSmall)?`), call `getcontext` (failure is returned as
`GetContext` with the OS error), then `makecontext` the wrapper so the fresh
context will invoke `entry` on first resumption.  `osOk` is the status of the
`getcontext` call and `errno` the OS error it would leave. -/
def new_on (osOk : Bool) (errno : Nat) (stack : Region) (entry : Transfer → Prog) :
    Except NewError (CtxId × CtxState) :=
  match stack_top stack with
  | none => .error .StackTooSmall
  | some pointer =>
    match osOk with
    | false => .error (.GetContext errno)
    | true => .ok (pointer, .fresh entry)

/-- Outcome of `Ucx::new_root`: either the root context, or the
`assert_eq!(status, 0, "Failed to construct top level context")` fired. -/
inductive RootOutcome where
  | ok (cx : CtxId)
  | panicked
deriving DecidableEq

/-- Mirrors `Ucx::new_root`: `getcontext` into a fresh leaked box; a non-zero
status fails the assertion (a panic, not a returned error).  `rootAddr` is
the address of the leaked box. -/
def new_root (osOk : Bool) (rootAddr : CtxId) : RootOutcome :=
  match osOk with
  | true => .ok rootAddr
  | false => .panicked

/-! ### Panic relay (`src/ful/src/raw/panicking.rs`) -/

/-- A boxed panic payload (`Box<dyn Any + Send>`): either the synthetic
forced-unwind marker `HandleDrop<R::Context>` wrapping a context, or any
other payload (tagged opaque value). -/
inductive Payload where
  | handleDrop (cx : CtxId)
  | other (tag : Nat) (val : Nat)
deriving DecidableEq

/-- A raw coroutine handle (`Co<R>`); its internals are opaque to the panic
relay, which only passes it along. -/
structure Co where
  ctx : CtxId
deriving DecidableEq

/-- Mirrors `payload.downcast::<HandleDrop<R::Context>>()`: succeeds exactly
on the marker, and the `Err` case hands back the very same box. -/
def downcastHandleDrop : Payload → Except Payload CtxId
  | .handleDrop cx => .ok cx
  | p => .error p

/-- How a call into the relay relinquishes control: it either returns
normally with a payload, or enters `begin_panic(p)` and never returns. -/
inductive UnwindControl where
  | returned (p : Payload)
  | panicking (p : Payload)
deriving DecidableEq

/-- Mirrors `unwind`: start a forced unwind of context `cx` by panicking with
the boxed `HandleDrop(cx)` marker; never returns normally. -/
def unwind (cx : CtxId) : UnwindControl :=
  .panicking (.handleDrop cx)

/-- Mirrors `resume_unwind`: try to downcast the payload to the forced-unwind
marker; on success re-raise the panic with that same marker box (never
returning), otherwise hand back the untouched payload. -/
def resume_unwind (payload : Payload) : UnwindControl :=
  match downcastHandleDrop payload with
  | .ok cx => .panicking (.handleDrop cx)
  | .error p => .returned p

/-- A `PanicHook` implementation: the provided `AbortHook`, or the blanket
implementation for any `FnOnce(Box<dyn Any + Send>) -> Co<R>`. -/
inductive Hook where
  | abortHook
  | fnOnce (f : Payload → Co)

/-- What `PanicHook::rewind` does: hand back a continuation coroutine, or die
(`AbortHook`'s body is `unreachable!`, aborting the flow). -/
inductive RewindOutcome where
  | continuation (c : Co)
  | died

/-- Mirrors the two `PanicHook` impls: `AbortHook::rewind` hits
`unreachable!("Uncaught panic in the root of a symmetric coroutine.")`; the
`FnOnce` blanket impl is `self(payload)`. -/
def rewind : Hook → Payload → RewindOutcome
  | .abortHook, _ => .died
  | .fnOnce f, p => .continuation (f p)

/-- Modelled from the spec: the default hook of a coroutine root is the
aborting one (spec §4.4 and §6: "default is abort"); the builder that sets it
is not under `src/`. -/
def defaultHook : Hook := .abortHook

/-- Outcome of a panic raised inside a coroutine, as seen at the chain root. -/
inductive PanicOutcome where
  | continuedWith (c : Co) (received : Payload)
  | abortedProcess

/-- Modelled from the spec: the raw coroutine layer (not under `src/`)
catches a panic's payload inside the coroutine, carries it across the switch
back to the resuming side, invokes the chain's panic hook with that payload,
and continues execution with the coroutine the hook returns, delivering the
payload to it; a hook that declines (aborts) takes the process down. -/
def relayOutcome (h : Hook) (p : Payload) : PanicOutcome :=
  match rewind h p with
  | .continuation c => .continuedWith c p
  | .died => .abortedProcess

/-! ### Concrete example worlds, used by witnesses and counterexamples -/

/-- A continuation that ends the run with the received datum. -/
def exK : Transfer → Prog := fun t => .stop t.data

/-- A suspended continuation observing the received datum. -/
def exKS : Transfer → Prog := fun t => .stop (t.data + 10)

/-- A second suspended continuation, parked on an unrelated context. -/
def exKS2 : Transfer → Prog := fun t => .stop (t.data + 20)

/-- An entry that immediately resumes back to its resumer with the same
payload — the identity round trip. -/
def exEntryEcho : Transfer → Prog :=
  fun t => .resume { context := { pointer := t.context.pointer, on_top := none },
                     data := t.data } (fun _ => .stop 0)

/-- An entry that just reports the datum it observed. -/
def exEntryObs : Transfer → Prog := fun t => .stop t.data

/-- An on-top callback that increments the data and installs nothing. -/
def exM : MapCode := .mk (fun p d => (p, d + 1)) none

/-- Contexts of the example world: `0` is the running root, `1` and `2` are
suspended, `3` is fresh with the echoing entry. -/
def exCtxs : CtxId → CtxState := fun c =>
  if c = 0 then .running
  else if c = 1 then .suspended exKS
  else if c = 2 then .suspended exKS2
  else if c = 3 then .fresh exEntryEcho
  else .running

/-- The example world: OS calls succeed, the slot names the root. -/
def exWorld : World :=
  { osOk := true, slot := { from? := none, ucx := 0, on_top := none, data := 0 }, ctxs := exCtxs }

/-- World for the fresh-target counterexample: `0` running root, everything
else fresh with the observing entry. -/
def exWorldObs : World :=
  { osOk := true, slot := { from? := none, ucx := 0, on_top := none, data := 0 },
    ctxs := fun c => if c = 0 then .running else .fresh exEntryObs }

/-! ## Basic lemmas about the machine -/

theorem setCtx_same (w : World) (c : CtxId) (s : CtxState) : (setCtx w c s).ctxs c = s := by
  simp [setCtx]

theorem setCtx_other (w : World) (c : CtxId) (s : CtxState) (x : CtxId) (h : x ≠ c) :
    (setCtx w c s).ctxs x = w.ctxs x := by
  simp [setCtx, h]

theorem setCtx_slot (w : World) (c : CtxId) (s : CtxState) : (setCtx w c s).slot = w.slot := rfl

theorem suspendCaller_ctxs (w : World) (t : Transfer) (k : Transfer → Prog) (x : CtxId) :
    (suspendCaller w t k).ctxs x = if x = w.slot.ucx then .suspended k else w.ctxs x := by
  by_cases h : x = w.slot.ucx
  · simp [suspendCaller, setCtx, h]
  · simp [suspendCaller, setCtx, h]

theorem suspendCaller_slot (w : World) (t : Transfer) (k : Transfer → Prog) :
    (suspendCaller w t k).slot = slotFor w t := rfl

theorem step_stop (cfg : Config) (d : Data) (hp : cfg.prog = .stop d) :
    step cfg = .halt d := by
  unfold step
  rw [hp]

theorem step_resume_aborts (cfg : Config) (t : Transfer) (k : Transfer → Prog)
    (hp : cfg.prog = .resume t k) (hos : cfg.w.osOk = false) :
    step cfg = .aborted := by
  unfold step
  rw [hp, hos]

theorem step_resume_eq (cfg : Config) (t : Transfer) (k : Transfer → Prog)
    (hp : cfg.prog = .resume t k) (hos : cfg.w.osOk = true) :
    step cfg = arriveAt (suspendCaller cfg.w t k) cfg.w.slot.ucx
      t.context.pointer t.context.on_top t.data := by
  unfold step
  rw [hp, hos]

theorem arriveAt_fresh (w : World) (src target : CtxId) (onTop : Option MapCode) (d : Data)
    (e : Transfer → Prog) (h : w.ctxs target = .fresh e) :
    arriveAt w src target onTop d =
      .next ⟨setCtx w target .running, target, e ⟨⟨src, onTop⟩, d⟩⟩
        [.arrive target ⟨⟨src, onTop⟩, d⟩, .entryRun target ⟨⟨src, onTop⟩, d⟩] := by
  unfold arriveAt
  rw [h]

theorem arriveAt_suspended_none (w : World) (src target : CtxId) (d : Data)
    (k : Transfer → Prog) (h : w.ctxs target = .suspended k) :
    arriveAt w src target none d =
      .next ⟨setCtx w target .running, target, k ⟨⟨src, none⟩, d⟩⟩
        [.arrive target ⟨⟨src, none⟩, d⟩, .ret target ⟨⟨src, none⟩, d⟩] := by
  unfold arriveAt
  rw [h]

theorem arriveAt_suspended_some (w : World) (src target : CtxId) (m : MapCode) (d : Data)
    (k : Transfer → Prog) (h : w.ctxs target = .suspended k) :
    arriveAt w src target (some m) d =
      .next ⟨setCtx w target .running, target, k (denoteMap m ⟨⟨src, none⟩, d⟩)⟩
        [.arrive target ⟨⟨src, some m⟩, d⟩,
         .mapRun target ⟨⟨src, none⟩, d⟩ (denoteMap m ⟨⟨src, none⟩, d⟩),
         .ret target (denoteMap m ⟨⟨src, none⟩, d⟩)] := by
  unfold arriveAt
  rw [h]

theorem arriveAt_next_inv (w : World) (src target : CtxId) (onTop : Option MapCode) (d : Data)
    (cfg2 : Config) (evs : List Event)
    (h : arriveAt w src target onTop d = .next cfg2 evs) :
    cfg2.w = setCtx w target .running ∧ cfg2.cur = target ∧
      ((∃ e, w.ctxs target = .fresh e ∧
          evs = [.arrive target ⟨⟨src, onTop⟩, d⟩, .entryRun target ⟨⟨src, onTop⟩, d⟩] ∧
          cfg2.prog = e ⟨⟨src, onTop⟩, d⟩) ∨
       (∃ k, w.ctxs target = .suspended k ∧
          ∃ t2, (evs = [.arrive target ⟨⟨src, onTop⟩, d⟩, .ret target t2] ∨
                 evs = [.arrive target ⟨⟨src, onTop⟩, d⟩,
                        .mapRun target ⟨⟨src, none⟩, d⟩ t2, .ret target t2]) ∧
            cfg2.prog = k t2)) := by
  rcases hs : w.ctxs target with e | k
  · rw [arriveAt_fresh w src target onTop d e hs] at h
    obtain ⟨h1, h2⟩ := Step.next.inj h
    refine ⟨congrArg Config.w h1.symm, congrArg Config.cur h1.symm, .inl ⟨e, rfl, h2.symm, ?_⟩⟩
    exact congrArg Config.prog h1.symm
  · rcases onTop with _ | m
    · rw [arriveAt_suspended_none w src target d k hs] at h
      obtain ⟨h1, h2⟩ := Step.next.inj h
      exact ⟨congrArg Config.w h1.symm, congrArg Config.cur h1.symm,
        .inr ⟨k, rfl, ⟨⟨src, none⟩, d⟩, .inl h2.symm, congrArg Config.prog h1.symm⟩⟩
    · rw [arriveAt_suspended_some w src target m d k hs] at h
      obtain ⟨h1, h2⟩ := Step.next.inj h
      exact ⟨congrArg Config.w h1.symm, congrArg Config.cur h1.symm,
        .inr ⟨k, rfl, denoteMap m ⟨⟨src, none⟩, d⟩, .inr h2.symm, congrArg Config.prog h1.symm⟩⟩
  · rw [show arriveAt w src target onTop d = .stuck by unfold arriveAt; rw [hs]] at h
    exact absurd h (by simp)

theorem step_next_inv (cfg cfg2 : Config) (evs : List Event) (h : step cfg = .next cfg2 evs) :
    ∃ t k, cfg.prog = .resume t k ∧ cfg.w.osOk = true ∧
      arriveAt (suspendCaller cfg.w t k) cfg.w.slot.ucx
        t.context.pointer t.context.on_top t.data = .next cfg2 evs := by
  rcases hp : cfg.prog with d | ⟨t, k⟩
  · rw [step_stop cfg d hp] at h
    exact absurd h (by simp)
  · rcases hos : cfg.w.osOk
    · rw [step_resume_aborts cfg t k hp hos] at h
      exact absurd h (by simp)
    · rw [step_resume_eq cfg t k hp hos] at h
      exact ⟨t, k, rfl, rfl, h⟩

theorem WF_of_step_next (cfg cfg2 : Config) (evs : List Event)
    (h : step cfg = .next cfg2 evs) : WF cfg2 := by
  obtain ⟨t, k, hp, hos, harr⟩ := step_next_inv cfg cfg2 evs h
  obtain ⟨hw, hcur, _⟩ := arriveAt_next_inv _ _ _ _ _ _ _ harr
  constructor
  · rw [hw, hcur, setCtx_slot, suspendCaller_slot]
    rfl
  · rw [hw, hcur, setCtx_same]

/-! ## Claims about context creation and error propagation -/

/-- C3: for every stack region too small to hold the context control block,
`new_on` returns the error `StackTooSmall` — it does not create a context
(no `.ok` value), and the model's only other outcomes are returned error
values, never a panic or abort. -/
theorem c3_undersized_stack_is_StackTooSmall
    (osOk : Bool) (errno : Nat) (stack : Region) (entry : Transfer → Prog)
    (h : stack.size < ucontextSize) :
    new_on osOk errno stack entry = .error .StackTooSmall := by
  unfold new_on stack_top
  rw [if_neg (Nat.not_le.mpr h)]

theorem c3_witness :
    (Region.mk 4096 100).size < ucontextSize ∧
      new_on true 0 (Region.mk 4096 100) exEntryEcho = .error .StackTooSmall :=
  ⟨by decide, c3_undersized_stack_is_StackTooSmall true 0 (Region.mk 4096 100)
    exEntryEcho (by decide)⟩

/-- C4 counterexample: an OS-primitive failure while creating the per-thread
root context is a creation error, yet `Ucx::new_root` does not return it as a
recoverable `Result` — the `assert_eq!` fires (a panic), which is the model's
`panicked` outcome, not a returned error value. -/
theorem c4_counterexample : new_root false 0 = RootOutcome.panicked := rfl

/-- C4 (amended): creation errors of `new_on` — a too-small stack, or failure
of the `getcontext` primitive — are returned to the caller as recoverable
`Result` error values; but a `getcontext` failure while creating the lazily
initialized root context is not returned: `new_root` fails its assertion
(panics) instead. -/
theorem c4_creation_error_policy (errno : Nat) (stack : Region) (entry : Transfer → Prog) :
    (stack.size < ucontextSize →
      ∀ osOk, new_on osOk errno stack entry = .error .StackTooSmall) ∧
    (ucontextSize ≤ stack.size →
      new_on false errno stack entry = .error (.GetContext errno)) ∧
    (∀ rootAddr, new_root false rootAddr = .panicked) := by
  refine ⟨fun h osOk => c3_undersized_stack_is_StackTooSmall osOk errno stack entry h,
    fun h => ?_, fun _ => rfl⟩
  unfold new_on stack_top
  rw [if_pos h]

theorem c4_witness :
    new_on false 7 (Region.mk 0 4096) exEntryEcho = .error (.GetContext 7) ∧
      new_root false 0 = .panicked :=
  ⟨(c4_creation_error_policy 7 (Region.mk 0 4096) exEntryEcho).2.1 (by decide),
    (c4_creation_error_policy 7 (Region.mk 0 4096) exEntryEcho).2.2 0⟩

/-- C5 counterexample: a failure of the underlying `getcontext` primitive
during context creation does not abort the process — `Ucx::new_on` returns it
to the caller as the recoverable error `GetContext`. -/
theorem c5_counterexample :
    new_on false 7 (Region.mk 0 4096) exEntryObs = .error (.GetContext 7) := rfl

/-- C5 (amended): whenever the OS context primitive fails during a *switch*,
the process aborts (`Ucx::resume` asserts on the `swapcontext` status and the
failure is never returned); but a primitive failure during context creation
in `new_on` is returned to the caller as a `GetContext` error, not an abort. -/
theorem c5_os_failure_policy (cfg : Config) (t : Transfer) (k : Transfer → Prog)
    (errno : Nat) (stack : Region) (entry : Transfer → Prog)
    (hp : cfg.prog = .resume t k) (hos : cfg.w.osOk = false)
    (hsz : ucontextSize ≤ stack.size) :
    step cfg = .aborted ∧ new_on false errno stack entry = .error (.GetContext errno) := by
  refine ⟨step_resume_aborts cfg t k hp hos, ?_⟩
  unfold new_on stack_top
  rw [if_pos hsz]

theorem c5_witness :
    step ⟨{ exWorld with osOk := false }, 0, .resume ⟨⟨1, none⟩, 5⟩ exK⟩ = .aborted ∧
      new_on false 9 (Region.mk 0 8192) exK = .error (.GetContext 9) :=
  c5_os_failure_policy ⟨{ exWorld with osOk := false }, 0, .resume ⟨⟨1, none⟩, 5⟩ exK⟩
    ⟨⟨1, none⟩, 5⟩ exK 9 (Region.mk 0 8192) exK rfl rfl (by decide)

/-! ## Claims about the panic relay -/

/-- C6: for every panic payload `p` raised inside a coroutine and every hook
given as a continuation-returning function `f`, the hook's `rewind` is
invoked with exactly `p` (the boxed payload passed through unchanged, so the
continuation coroutine is `f p`), and that coroutine is the one that
continues execution, receiving exactly `p`. -/
theorem c6_hook_rewind_exact_payload (f : Payload → Co) (p : Payload) :
    rewind (.fnOnce f) p = .continuation (f p) ∧
      relayOutcome (.fnOnce f) p = .continuedWith (f p) p :=
  ⟨rfl, rfl⟩

/-- C7: under the default panic hook (`AbortHook`), a panic reaching the root
of a coroutine chain aborts the whole process, and the default hook never
returns a continuation. -/
theorem c7_default_hook_aborts (p : Payload) :
    relayOutcome defaultHook p = .abortedProcess ∧
      ∀ c, rewind defaultHook p ≠ .continuation c :=
  ⟨rfl, fun _ h => RewindOutcome.noConfusion h⟩

/-- C9: `resume_unwind` re-raises the panic and never returns normally when
the payload is the synthetic forced-unwind marker `HandleDrop` wrapping a
context; on any other payload it returns that very payload unchanged; and it
never returns a payload different from the one it was given. -/
theorem c9_resume_unwind_payload (p q : Payload) (cx : CtxId) :
    resume_unwind (.handleDrop cx) = .panicking (.handleDrop cx) ∧
      ((∀ c, p ≠ .handleDrop c) → resume_unwind p = .returned p) ∧
      (resume_unwind p = .returned q → q = p) := by
  refine ⟨rfl, fun h => ?_, fun h => ?_⟩
  · cases p with
    | handleDrop c => exact absurd rfl (h c)
    | other tag v => rfl
  · cases p with
    | handleDrop c => exact absurd h (by simp [resume_unwind, downcastHandleDrop])
    | other tag v =>
      have h2 : UnwindControl.returned (.other tag v) = .returned q := h
      exact (UnwindControl.returned.inj h2).symm

theorem c9_witness :
    resume_unwind (.other 3 5) = .returned (.other 3 5) ∧
      resume_unwind (.handleDrop 2) = .panicking (.handleDrop 2) :=
  ⟨(c9_resume_unwind_payload (.other 3 5) (.other 3 5) 2).2.1
      (fun _ h => Payload.noConfusion h),
    (c9_resume_unwind_payload (.other 3 5) (.other 3 5) 2).1⟩

/-! ## Claims about `Ucx::resume` and the on-top callback -/

/-- C1: a call to `resume` with a transfer switches the flow of control into
the target context and suspends the caller's own context (first conjunct);
while no switch targets the caller's context it stays suspended, its
continuation not invoked (second conjunct); when a later switch does target
the caller's context, the call returns exactly the data passed at that later
switch, unchanged (third conjunct); and the identity round trip — resuming a
coroutine that immediately resumes back with the same payload — returns that
exact payload (fourth conjunct). -/
theorem c1_resume_transfers_control :
    (∀ cfg t k, WF cfg → cfg.prog = .resume t k → cfg.w.osOk = true →
      t.context.pointer ≠ cfg.cur →
      ((∃ e, cfg.w.ctxs t.context.pointer = .fresh e) ∨
       (∃ k2, cfg.w.ctxs t.context.pointer = .suspended k2)) →
      ∃ cfg2 evs, step cfg = .next cfg2 evs ∧ cfg2.cur = t.context.pointer ∧
        cfg2.w.ctxs cfg.cur = .suspended k) ∧
    (∀ cfg t k A kA cfg2 evs, WF cfg → cfg.prog = .resume t k →
      cfg.w.ctxs A = .suspended kA → t.context.pointer ≠ A →
      step cfg = .next cfg2 evs → cfg2.w.ctxs A = .suspended kA ∧ cfg2.cur ≠ A) ∧
    (∀ cfg t k A kA, WF cfg → cfg.prog = .resume t k → cfg.w.osOk = true →
      cfg.w.ctxs A = .suspended kA → t.context.pointer = A → t.context.on_top = none →
      ∃ cfg2 evs, step cfg = .next cfg2 evs ∧ cfg2.cur = A ∧
        cfg2.prog = kA ⟨⟨cfg.cur, none⟩, t.data⟩) ∧
    (run 3 ⟨exWorld, 0, .resume ⟨⟨3, none⟩, 42⟩ exK⟩).2 = some 42 := by
  refine ⟨?_, ?_, ?_, rfl⟩
  · intro cfg t k hwf hp hos hne hres
    rw [step_resume_eq cfg t k hp hos]
    have hsus : (suspendCaller cfg.w t k).ctxs cfg.cur = .suspended k := by
      rw [suspendCaller_ctxs, hwf.1, if_pos rfl]
    have hctx : (suspendCaller cfg.w t k).ctxs t.context.pointer
        = cfg.w.ctxs t.context.pointer := by
      rw [suspendCaller_ctxs, hwf.1, if_neg hne]
    rcases hres with ⟨e, he⟩ | ⟨k2, hk2⟩
    · exact ⟨_, _, arriveAt_fresh _ _ _ _ _ e (hctx.trans he), rfl, by
        rw [setCtx_other _ _ _ _ (fun h => hne h.symm), hsus]⟩
    · rcases ht : t.context.on_top with _ | m
      · exact ⟨_, _, arriveAt_suspended_none _ _ _ _ k2 (hctx.trans hk2), rfl, by
          rw [setCtx_other _ _ _ _ (fun h => hne h.symm), hsus]⟩
      · exact ⟨_, _, arriveAt_suspended_some _ _ _ m _ k2 (hctx.trans hk2), rfl, by
          rw [setCtx_other _ _ _ _ (fun h => hne h.symm), hsus]⟩
  · intro cfg t k A kA cfg2 evs hwf hp hA hne hstep
    obtain ⟨t', k', hp', hos, harr⟩ := step_next_inv _ _ _ hstep
    obtain ⟨ht, hk⟩ := Prog.resume.inj (hp.symm.trans hp')
    subst ht
    obtain ⟨hw2, hcur2, _⟩ := arriveAt_next_inv _ _ _ _ _ _ _ harr
    have hAcur : A ≠ cfg.cur := by
      intro hEq
      rw [hEq, hwf.2] at hA
      exact CtxState.noConfusion hA
    constructor
    · rw [hw2, setCtx_other _ _ _ _ (Ne.symm hne), suspendCaller_ctxs, hwf.1,
        if_neg hAcur, hA]
    · rw [hcur2]
      exact hne
  · intro cfg t k A kA hwf hp hos hA htgt htop
    have hAcur : A ≠ cfg.cur := by
      intro hEq
      rw [hEq, hwf.2] at hA
      exact CtxState.noConfusion hA
    rw [step_resume_eq cfg t k hp hos, htgt, htop, hwf.1]
    have hctx : (suspendCaller cfg.w t k).ctxs A = .suspended kA := by
      rw [suspendCaller_ctxs, hwf.1, if_neg hAcur, hA]
    exact ⟨_, _, arriveAt_suspended_none _ cfg.cur A t.data kA hctx, rfl, rfl⟩

theorem c1_witness :
    ∃ cfg2 evs,
      step ⟨exWorld, 0, .resume ⟨⟨1, none⟩, 7⟩ exK⟩ = .next cfg2 evs ∧
        cfg2.cur = 1 ∧ cfg2.prog = exKS ⟨⟨0, none⟩, 7⟩ :=
  c1_resume_transfers_control.2.2.1 ⟨exWorld, 0, .resume ⟨⟨1, none⟩, 7⟩ exK⟩
    ⟨⟨1, none⟩, 7⟩ exK 1 exKS ⟨rfl, rfl⟩ rfl rfl rfl rfl rfl

/-- C2 counterexample: `resume_with` into a *fresh* context does not run the
installed callback before the target's ordinary continuation.  The target's
continuation (its entry) observes the original data `5` — with the callback
still installed, uninvoked (no `mapRun` event) — although the callback maps
the data to `6`, so the continuation does not observe the transfer the
callback produces. -/
theorem c2_counterexample :
    (run 2 ⟨exWorldObs, 0, .resumeWith ⟨⟨1, none⟩, 5⟩ exM exK⟩).2 = some 5 ∧
      (run 2 ⟨exWorldObs, 0, .resumeWith ⟨⟨1, none⟩, 5⟩ exM exK⟩).1 =
        [.arrive 1 ⟨⟨0, some exM⟩, 5⟩, .entryRun 1 ⟨⟨0, some exM⟩, 5⟩] ∧
      (denoteMap exM ⟨⟨0, none⟩, 5⟩).data = 6 :=
  ⟨rfl, rfl, rfl⟩

/-- C2 (amended): `resume_with` is `resume` with the callback installed on
the transfer's context (first conjunct); when the target context is one
suspended inside a `resume` call — i.e. one that *regains* control — the
callback runs on the target immediately after it regains control and before
its ordinary continuation, and the transfer the continuation observes is the
one produced by the callback (second conjunct).  When the target is a fresh
context, the callback is instead delivered uninvoked inside the entry's
initial transfer (see the counterexample). -/
theorem c2_resume_with_callback :
    (∀ t m k, Prog.resumeWith t m k =
      .resume ⟨⟨t.context.pointer, some m⟩, t.data⟩ k) ∧
    (∀ cfg t m k A kA, WF cfg → cfg.prog = .resumeWith t m k → cfg.w.osOk = true →
      cfg.w.ctxs A = .suspended kA → t.context.pointer = A →
      ∃ cfg2, step cfg = .next cfg2
          [.arrive A ⟨⟨cfg.cur, some m⟩, t.data⟩,
           .mapRun A ⟨⟨cfg.cur, none⟩, t.data⟩ (denoteMap m ⟨⟨cfg.cur, none⟩, t.data⟩),
           .ret A (denoteMap m ⟨⟨cfg.cur, none⟩, t.data⟩)] ∧
        cfg2.cur = A ∧ cfg2.prog = kA (denoteMap m ⟨⟨cfg.cur, none⟩, t.data⟩)) := by
  refine ⟨fun t m k => rfl, ?_⟩
  intro cfg t m k A kA hwf hp hos hA htgt
  subst htgt
  have hAcur : t.context.pointer ≠ cfg.cur := by
    intro hEq
    rw [hEq, hwf.2] at hA
    exact CtxState.noConfusion hA
  have hp2 : cfg.prog = .resume ⟨⟨t.context.pointer, some m⟩, t.data⟩ k := hp
  rw [step_resume_eq cfg ⟨⟨t.context.pointer, some m⟩, t.data⟩ k hp2 hos, hwf.1]
  have hctx : (suspendCaller cfg.w ⟨⟨t.context.pointer, some m⟩, t.data⟩ k).ctxs
      t.context.pointer = .suspended kA := by
    rw [suspendCaller_ctxs, hwf.1, if_neg hAcur, hA]
  exact ⟨_, arriveAt_suspended_some _ cfg.cur t.context.pointer m t.data kA hctx, rfl, rfl⟩

theorem c2_witness :
    (∃ cfg2, step ⟨exWorld, 0, .resumeWith ⟨⟨1, none⟩, 7⟩ exM exK⟩ = .next cfg2
        [.arrive 1 ⟨⟨0, some exM⟩, 7⟩,
         .mapRun 1 ⟨⟨0, none⟩, 7⟩ (denoteMap exM ⟨⟨0, none⟩, 7⟩),
         .ret 1 (denoteMap exM ⟨⟨0, none⟩, 7⟩)] ∧
      cfg2.cur = 1 ∧ cfg2.prog = exKS (denoteMap exM ⟨⟨0, none⟩, 7⟩)) ∧
      denoteMap exM ⟨⟨0, none⟩, 7⟩ = ⟨⟨0, none⟩, 8⟩ :=
  ⟨c2_resume_with_callback.2 ⟨exWorld, 0, .resumeWith ⟨⟨1, none⟩, 7⟩ exM exK⟩
      ⟨⟨1, none⟩, 7⟩ exM exK 1 exKS ⟨rfl, rfl⟩ rfl rfl rfl rfl, rfl⟩

/-- C10: when control returns to a context suspended inside `Ucx::resume`,
the incoming on-top callback is removed from the transfer before being
invoked — the callback's input transfer carries no on-top callback — it
runs exactly once during that arrival (a single `mapRun` event), and the
transfer delivered onward to the continuation carries exactly what the
callback itself installs, hence no on-top callback at all unless the
callback installs a new one. -/
theorem c10_on_top_consumed :
    ∀ cfg t k A kA m, WF cfg → cfg.prog = .resume t k → cfg.w.osOk = true →
      cfg.w.ctxs A = .suspended kA → t.context.pointer = A → t.context.on_top = some m →
      ∃ cfg2, step cfg = .next cfg2
          [.arrive A ⟨⟨cfg.cur, some m⟩, t.data⟩,
           .mapRun A ⟨⟨cfg.cur, none⟩, t.data⟩ (denoteMap m ⟨⟨cfg.cur, none⟩, t.data⟩),
           .ret A (denoteMap m ⟨⟨cfg.cur, none⟩, t.data⟩)] ∧
        cfg2.prog = kA (denoteMap m ⟨⟨cfg.cur, none⟩, t.data⟩) ∧
        (denoteMap m ⟨⟨cfg.cur, none⟩, t.data⟩).context.on_top = m.reinstallOf := by
  intro cfg t k A kA m hwf hp hos hA htgt htop
  have hAcur : A ≠ cfg.cur := by
    intro hEq
    rw [hEq, hwf.2] at hA
    exact CtxState.noConfusion hA
  rw [step_resume_eq cfg t k hp hos, htgt, htop, hwf.1]
  have hctx : (suspendCaller cfg.w t k).ctxs A = .suspended kA := by
    rw [suspendCaller_ctxs, hwf.1, if_neg hAcur, hA]
  refine ⟨_, arriveAt_suspended_some _ cfg.cur A m t.data kA hctx, rfl, ?_⟩
  cases m
  rfl

/-! ## Entry runs exactly once: supporting lemmas -/

theorem entriesOf_append (c : CtxId) (l1 l2 : List Event) :
    entriesOf c (l1 ++ l2) = entriesOf c l1 ++ entriesOf c l2 := by
  induction l1 with
  | nil => rfl
  | cons e es ih =>
    cases e with
    | entryRun c2 t =>
      by_cases h : c2 = c
      · simp [entriesOf, h, ih]
      · simp [entriesOf, h, ih]
    | arrive c2 t => simpa [entriesOf] using ih
    | mapRun c2 a b => simpa [entriesOf] using ih
    | ret c2 t => simpa [entriesOf] using ih

theorem arrivalsOf_append (c : CtxId) (l1 l2 : List Event) :
    arrivalsOf c (l1 ++ l2) = arrivalsOf c l1 ++ arrivalsOf c l2 := by
  induction l1 with
  | nil => rfl
  | cons e es ih =>
    cases e with
    | arrive c2 t =>
      by_cases h : c2 = c
      · simp [arrivalsOf, h, ih]
      · simp [arrivalsOf, h, ih]
    | entryRun c2 t => simpa [arrivalsOf] using ih
    | mapRun c2 a b => simpa [arrivalsOf] using ih
    | ret c2 t => simpa [arrivalsOf] using ih

theorem step_next_ctxs (cfg cfg2 : Config) (evs : List Event)
    (h : step cfg = .next cfg2 evs) (c : CtxId) :
    cfg2.w.ctxs c = cfg.w.ctxs c ∨ (∃ k, cfg2.w.ctxs c = .suspended k) ∨
      cfg2.w.ctxs c = .running := by
  obtain ⟨t, k, hp, hos, harr⟩ := step_next_inv _ _ _ h
  obtain ⟨hw2, -, -⟩ := arriveAt_next_inv _ _ _ _ _ _ _ harr
  rw [hw2]
  by_cases h1 : c = t.context.pointer
  · right; right
    rw [h1, setCtx_same]
  · rw [setCtx_other _ _ _ _ h1, suspendCaller_ctxs]
    by_cases h2 : c = cfg.w.slot.ucx
    · right; left
      exact ⟨k, by rw [if_pos h2]⟩
    · left
      rw [if_neg h2]

/-- A context that is not fresh never has its entry invoked during a run. -/
theorem entriesOf_run_nil (n : Nat) :
    ∀ cfg c, (∀ e, cfg.w.ctxs c ≠ .fresh e) → entriesOf c (run n cfg).1 = [] := by
  induction n with
  | zero =>
    intro cfg c _
    rfl
  | succ n ih =>
    intro cfg c hnf
    rcases hs : step cfg with d | _ | _ | ⟨cfg2, evs⟩
    · simp [run, hs, entriesOf]
    · simp [run, hs, entriesOf]
    · simp [run, hs, entriesOf]
    · have hrun1 : (run (n + 1) cfg).1 = evs ++ (run n cfg2).1 := by simp [run, hs]
      rw [hrun1, entriesOf_append]
      have h3 : entriesOf c (run n cfg2).1 = [] := by
        apply ih
        intro e he
        rcases step_next_ctxs cfg cfg2 evs hs c with h4 | ⟨k, h4⟩ | h4
        · exact hnf e (h4 ▸ he)
        · rw [he] at h4
          exact CtxState.noConfusion h4
        · rw [he] at h4
          exact CtxState.noConfusion h4
      obtain ⟨t, k, hp, hos, harr⟩ := step_next_inv _ _ _ hs
      obtain ⟨-, -, hcases⟩ := arriveAt_next_inv _ _ _ _ _ _ _ harr
      rcases hcases with ⟨e2, he2, hevs, -⟩ | ⟨k2, -, t2, hevs2, -⟩
      · subst hevs
        have htc : t.context.pointer ≠ c := by
          intro hEq
          rw [suspendCaller_ctxs] at he2
          by_cases h5 : t.context.pointer = cfg.w.slot.ucx
          · rw [if_pos h5] at he2
            exact CtxState.noConfusion he2
          · rw [if_neg h5, hEq] at he2
            exact hnf e2 he2
        simp [entriesOf, htc, h3]
      · rcases hevs2 with hevs | hevs <;> subst hevs <;> simp [entriesOf, h3]

/-- For a fresh context, the transfers its entry is invoked with are exactly
the first arriving transfer (if control ever arrives): the entry runs exactly
once, at the first switch into the context, receiving that switch's
transfer, and never again. -/
theorem entries_take_one_arrivals (n : Nat) :
    ∀ cfg c e, WF cfg → cfg.w.ctxs c = .fresh e →
      entriesOf c (run n cfg).1 = List.take 1 (arrivalsOf c (run n cfg).1) := by
  induction n with
  | zero =>
    intro cfg c e _ _
    rfl
  | succ n ih =>
    intro cfg c e hwf hc
    rcases hs : step cfg with d | _ | _ | ⟨cfg2, evs⟩
    · simp [run, hs, entriesOf, arrivalsOf]
    · simp [run, hs, entriesOf, arrivalsOf]
    · simp [run, hs, entriesOf, arrivalsOf]
    · have hrun1 : (run (n + 1) cfg).1 = evs ++ (run n cfg2).1 := by simp [run, hs]
      rw [hrun1, entriesOf_append, arrivalsOf_append]
      obtain ⟨t, k, hp, hos, harr⟩ := step_next_inv _ _ _ hs
      obtain ⟨hw2, hcur2, hcases⟩ := arriveAt_next_inv _ _ _ _ _ _ _ harr
      have hccur : c ≠ cfg.cur := by
        intro hEq
        rw [hEq, hwf.2] at hc
        exact CtxState.noConfusion hc
      have hcsrc : c ≠ cfg.w.slot.ucx := by
        rw [hwf.1]
        exact hccur
      rcases hcases with ⟨e2, he2, hevs, -⟩ | ⟨k2, hk2, t2, hevs2, -⟩
      · subst hevs
        by_cases htc : t.context.pointer = c
        · have hrest : entriesOf c (run n cfg2).1 = [] := by
            apply entriesOf_run_nil
            intro e3 he3
            rw [hw2, htc, setCtx_same] at he3
            exact CtxState.noConfusion he3
          rw [hrest]
          simp [entriesOf, arrivalsOf, htc]
        · have hpres : cfg2.w.ctxs c = .fresh e := by
            rw [hw2, setCtx_other _ _ _ _ (fun hEq => htc hEq.symm),
              suspendCaller_ctxs, if_neg hcsrc]
            exact hc
          have hihs := ih cfg2 c e (WF_of_step_next _ _ _ hs) hpres
          simp [entriesOf, arrivalsOf, htc, hihs]
      · have htc : t.context.pointer ≠ c := by
          intro hEq
          rw [suspendCaller_ctxs, hEq, if_neg hcsrc, hc] at hk2
          exact CtxState.noConfusion hk2
        have hpres : cfg2.w.ctxs c = .fresh e := by
          rw [hw2, setCtx_other _ _ _ _ (fun hEq => htc hEq.symm),
            suspendCaller_ctxs, if_neg hcsrc]
          exact hc
        have hihs := ih cfg2 c e (WF_of_step_next _ _ _ hs) hpres
        rcases hevs2 with hevs | hevs <;> subst hevs <;>
          simp [entriesOf, arrivalsOf, htc, hihs]

/-- C8: for every freshly created context, the entry is invoked exactly once
— at the first switch that gives the context control, receiving that
switch's arriving transfer, and never a second time (the entry invocations
are exactly the first arrival); and creation itself (`new_on`) stores the
entry in a fresh, not-yet-invoked context, so the entry never runs at
creation time. -/
theorem c8_entry_exactly_once (n : Nat) (cfg : Config) (c : CtxId) (e : Transfer → Prog)
    (stack : Region) (errno : Nat) (hwf : WF cfg) (hc : cfg.w.ctxs c = .fresh e) :
    entriesOf c (run n cfg).1 = List.take 1 (arrivalsOf c (run n cfg).1) ∧
      (∀ p st, new_on true errno stack e = .ok (p, st) → st = .fresh e) := by
  refine ⟨entries_take_one_arrivals n cfg c e hwf hc, ?_⟩
  intro p st h
  unfold new_on at h
  rcases hst : stack_top stack with _ | q
  · rw [hst] at h
    exact absurd h (by simp)
  · rw [hst] at h
    have h3 := Except.ok.inj h
    exact (congrArg Prod.snd h3).symm

theorem c8_witness :
    entriesOf 3 (run 3 ⟨exWorld, 0, .resume ⟨⟨3, none⟩, 42⟩ exK⟩).1 =
        List.take 1 (arrivalsOf 3 (run 3 ⟨exWorld, 0, .resume ⟨⟨3, none⟩, 42⟩ exK⟩).1) ∧
      (∀ p st, new_on true 0 (Region.mk 0 4096) exEntryEcho = .ok (p, st) →
        st = .fresh exEntryEcho) :=
  c8_entry_exactly_once 3 ⟨exWorld, 0, .resume ⟨⟨3, none⟩, 42⟩ exK⟩ 3 exEntryEcho
    (Region.mk 0 4096) 0 ⟨rfl, rfl⟩ rfl

theorem c10_witness :
    (∃ cfg2, step ⟨exWorld, 0, .resume ⟨⟨2, some exM⟩, 11⟩ exK⟩ = .next cfg2
        [.arrive 2 ⟨⟨0, some exM⟩, 11⟩,
         .mapRun 2 ⟨⟨0, none⟩, 11⟩ (denoteMap exM ⟨⟨0, none⟩, 11⟩),
         .ret 2 (denoteMap exM ⟨⟨0, none⟩, 11⟩)] ∧
      cfg2.prog = exKS2 (denoteMap exM ⟨⟨0, none⟩, 11⟩) ∧
      (denoteMap exM ⟨⟨0, none⟩, 11⟩).context.on_top = exM.reinstallOf) ∧
      exM.reinstallOf = none :=
  ⟨c10_on_top_consumed ⟨exWorld, 0, .resume ⟨⟨2, some exM⟩, 11⟩ exK⟩
      ⟨⟨2, some exM⟩, 11⟩ exK 2 exKS2 exM ⟨rfl, rfl⟩ rfl rfl rfl rfl rfl, rfl⟩

end Unico
